import Mathlib

/-!
Verification of the aocp parser-combinator engine (src/aocp/parsers.py).

The Python module is shallowly embedded here: strings are Lean strings
(manipulated as character lists by structurally recursive helpers that mirror
the semantics of the Python string methods used by the source), runtime values
are the inductive type PyVal, and every fallible operation returns
Except PyErr.  Python's dynamic type checks that matter to the source
(truthiness of strings, lists and option-like None values; isinstance tests on
the subparser slot; len() being undefined on generators) are modelled
explicitly.
-/

namespace Aocp

/-- The Python exception kinds raised by the code paths under study.  The
message strings are informative only. -/
inductive PyErr where
  | typeError (msg : String)
  | valueError (msg : String)
  | assertionError (msg : String)
  | indexError (msg : String)
deriving Repr, DecidableEq

/-- A Python runtime value as produced by the parsers: strings, integers,
booleans, tuples, lists and dictionaries (as insertion-ordered pair lists). -/
inductive PyVal where
  | str (s : String)
  | int (n : Int)
  | bool (b : Bool)
  | tuple (elems : List PyVal)
  | list (elems : List PyVal)
  | dict (entries : List (PyVal × PyVal))
deriving Repr

/-! ### Python string primitives -/

/-- The ASCII whitespace characters stripped by Python str.strip(). -/
def isPySpace (c : Char) : Bool :=
  c = ' ' || c = '\t' || c = '\n' || c = '\r' || c = '\x0b' || c = '\x0c'

/-- str.strip() on a character list. -/
def pyStripList (l : List Char) : List Char :=
  ((l.dropWhile isPySpace).reverse.dropWhile isPySpace).reverse

/-- Python str.strip() with no argument. -/
def pyStrip (s : String) : String :=
  String.mk (pyStripList s.data)

/-- Whether pat occurs as a contiguous substring of the list (Python
"pat in s"); the empty pattern occurs in every string. -/
def subOccurs (pat : List Char) : List Char → Bool
  | [] => pat.isEmpty
  | c :: cs => pat.isPrefixOf (c :: cs) || subOccurs pat cs

/-- Python "pat in s" on strings. -/
def strOccurs (s pat : String) : Bool :=
  subOccurs pat.data s.data

/-- Helper for listSplitOn.  The fuel argument bounds the recursion depth; one
unit of fuel is spent per consumed character, so fuel = length + 1 always
suffices and the fuel-exhausted equation is never reached at that budget.
acc holds the characters of the current piece in reverse. -/
def splitOnAux (sep : List Char) : Nat → List Char → List Char → List (List Char)
  | 0, l, acc => [acc.reverse ++ l]
  | _ + 1, [], acc => [acc.reverse]
  | fuel + 1, c :: cs, acc =>
    if sep.isPrefixOf (c :: cs) then
      acc.reverse :: splitOnAux sep fuel ((c :: cs).drop sep.length) []
    else
      splitOnAux sep fuel cs (c :: acc)

/-- Python str.split(sep) for a non-empty separator: split at every
(left-to-right, non-overlapping) occurrence, keeping empty pieces.  The source
never splits on an empty separator (it is guarded by a truthiness test), so
the empty-separator case is given the harmless value [l]. -/
def listSplitOn (sep l : List Char) : List (List Char) :=
  if sep.isEmpty then [l] else splitOnAux sep (l.length + 1) l []

/-- Join pieces with a separator (inverse of splitting; used to express the
Python bounded split and bounded replace in terms of the unbounded split). -/
def joinWith (sep : List Char) : List (List Char) → List Char
  | [] => []
  | [x] => x
  | x :: y :: ys => x ++ sep ++ joinWith sep (y :: ys)

/-- Python str.split(sep, maxsplit): at most maxsplit splits are performed
(a negative maxsplit means no limit), so the tail pieces beyond the limit are
rejoined with the separator. -/
def pySplitList (l sep : List Char) (maxsplit : Int) : List (List Char) :=
  let parts := listSplitOn sep l
  if maxsplit < 0 ∨ (parts.length : Int) ≤ maxsplit + 1 then parts
  else parts.take maxsplit.toNat ++ [joinWith sep (parts.drop maxsplit.toNat)]

/-- Python str.replace(old, new [, count]): replace the first count
occurrences (all of them when count is absent or negative).  Expressed through
the unbounded split: pieces within the budget are joined with new, the rest
are joined back with old. -/
def pyReplaceList (l old new : List Char) (count : Option Int) : List Char :=
  let parts := listSplitOn old l
  match count with
  | none => joinWith new parts
  | some k =>
    if k < 0 ∨ (parts.length : Int) ≤ k + 1 then joinWith new parts
    else joinWith old (joinWith new (parts.take (k.toNat + 1)) :: parts.drop (k.toNat + 1))

/-! ### Splitter specification and the splitter heuristic
(BaseAoCParser.SPLITTER_PRIORITY, BaseIterableParser._decide_splitter) -/

/-- One element of a sequence-valued splitter configuration.  The source
iterates over the sequence calling string.replace on each element, which is
only legal when the element is a string; obj stands for any non-string Python
object found there (for instance the parser objects that DictParser.__init__
accidentally places in this slot), with a description used only in the error
message. -/
inductive SplitElem where
  | str (s : String)
  | obj (descr : String)
deriving Repr, DecidableEq

/-- The splitter slot of an iterable parser: Python None, a single string, or
a sequence of split points. -/
inductive SplitSpec where
  | nil
  | str (s : String)
  | seq (elems : List SplitElem)
deriving Repr, DecidableEq

/-- Python truthiness of the splitter slot: None, the empty string and the
empty sequence are falsy. -/
def SplitSpec.isTruthy : SplitSpec → Bool
  | .nil => false
  | .str s => !s.isEmpty
  | .seq es => !es.isEmpty

/-- BaseAoCParser.SPLITTER_PRIORITY. -/
def SPLITTER_PRIORITY : List String :=
  ["\n\n", "\n", "|", "->", ";", ",", " ", ":"]

/-- BaseIterableParser._decide_splitter with the default priority list: the
first candidate occurring anywhere in the stripped string, None when no
candidate occurs. -/
def decideSplitter (string : String) : Option String :=
  SPLITTER_PRIORITY.find? (fun s => strOccurs (pyStrip string) s)

/-! ### The sequence decomposer (BaseIterableParser._split) -/

/-- The value returned by _split: either a genuine Python list of strings
(produced by str.split) or the lazy generator of the characters of the input
(produced when the splitter is falsy).  The distinction is observable: len()
is defined on a list but raises TypeError on a generator. -/
inductive SplitResult where
  | strList (pieces : List String)
  | charGen (source : String)
deriving Repr, DecidableEq

/-- Python truthiness of the count argument: None and 0 are falsy. -/
def countTruthy : Option Int → Bool
  | none => false
  | some k => k ≠ 0

/-- The expression string.split(splitter, count) if count else
string.split(splitter) from _split: the bound is only honoured when count is
truthy, so both None and 0 fall back to an unbounded split. -/
def pySplitBounded (s sep : String) (count : Option Int) : List String :=
  if countTruthy count then
    (pySplitList s.data sep.data (count.getD 0)).map String.mk
  else
    (listSplitOn sep.data s.data).map String.mk

/-- The normalisation loop of _split for a sequence-valued splitter: each
element is replaced by the literal "__split__" in turn (bounded by count when
count is truthy, as in the source expression string.replace(s, "__split__",
count) if count else string.replace(s, "__split__")).  A non-string element
makes str.replace raise TypeError. -/
def replaceSeq (count : Option Int) : List SplitElem → String → Except PyErr String
  | [], s => .ok s
  | .str lit :: rest, s =>
    replaceSeq count rest
      (String.mk (pyReplaceList s.data lit.data "__split__".data
        (if countTruthy count then count else none)))
  | .obj d :: _, _ => .error (.typeError ("replace() argument 1 must be str, not " ++ d))

/-- BaseIterableParser._split.  A falsy splitter yields the per-character
generator; a string splitter yields a bounded split; a sequence splitter first
normalises every element to the placeholder "__split__" and then performs the
recursive call _split(string, "__split__", count), inlined here as the
corresponding bounded split. -/
def splitPy (string : String) (splitter : SplitSpec) (count : Option Int) :
    Except PyErr SplitResult :=
  if splitter.isTruthy = false then .ok (.charGen string)
  else
    match splitter with
    | .nil => .ok (.charGen string)
    | .str sep => .ok (.strList (pySplitBounded string sep count))
    | .seq es => do
      let s2 ← replaceSeq count es string
      .ok (.strList (pySplitBounded s2 "__split__" count))

/-- len(sequence) on a _split result: defined for a list, a TypeError for the
character generator. -/
def SplitResult.pyLen : SplitResult → Except PyErr Nat
  | .strList ps => .ok ps.length
  | .charGen _ => .error (.typeError "object of type generator has no len()")

/-- Iterating a _split result: the pieces of the list, or the characters of
the source as one-character strings for the generator. -/
def SplitResult.pieces : SplitResult → List String
  | .strList ps => ps
  | .charGen s => s.data.map (fun c => String.mk [c])

/-! ### The subparser slot and iterable decomposition
(BaseIterableParser._iterable_parse) -/

/-- The subparser slot of an iterable parser.  single is a callable that is
not a Python Iterable (a parser object, the builtin str, or any function);
positional is a Python sequence of such callables; strVal is a plain string
stored in the slot, which Python's isinstance(subparser, Iterable) also
accepts because str instances are iterable (this is how DictParser's swapped
constructor arguments are typed).  Callables take the piece and return a
value or raise. -/
inductive SubSpec where
  | single (f : String → Except PyErr PyVal)
  | positional (fs : List (String → Except PyErr PyVal))
  | strVal (s : String)

/-- isinstance(subparser, Iterable): lists and strings are iterable, a lone
callable is not. -/
def SubSpec.isIterable : SubSpec → Bool
  | .single _ => false
  | .positional _ => true
  | .strVal _ => true

/-- len(subparser); the source only takes it on iterable subparsers, so the
single case is arbitrary. -/
def SubSpec.pyLen : SubSpec → Nat
  | .single _ => 0
  | .positional fs => fs.length
  | .strVal s => s.length

/-- The elements obtained by iterating the subparser in
zip(subparser, sequence).  Iterating a string yields its characters, which
are not callable, so applying such an element raises TypeError. -/
def SubSpec.callables : SubSpec → List (String → Except PyErr PyVal)
  | .single f => [f]
  | .positional fs => fs
  | .strVal s => s.data.map (fun _ => fun _ => .error (.typeError "str object is not callable"))

/-- The expression splitter or cls._decide_splitter(string) at the top of
_iterable_parse: a falsy splitter is replaced by the heuristic's choice
(which may itself be None). -/
def resolveSplitter (string : String) (splitter : SplitSpec) : SplitSpec :=
  if splitter.isTruthy then splitter
  else
    match decideSplitter string with
    | some d => .str d
    | none => .nil

/-- BaseIterableParser._iterable_parse.  After resolving the splitter, an
iterable subparser fixes count to len(subparser) - 1 when the caller gave
none; the decomposition is computed; in positional mode the piece count is
asserted equal to the subparser count (taking len() of the decomposition,
which raises TypeError on the character generator) and each stripped piece
goes to its positional callable; in uniform mode each piece is stripped,
empty pieces are dropped and the single callable is applied.  The generators
the source returns are materialised eagerly here, which is observationally
equal for the List/Set/Tuple/Dict consumers that materialise them at once. -/
def iterableParse (string : String) (splitter : SplitSpec) (subparser : SubSpec)
    (count : Option Int) : Except PyErr (List PyVal) := do
  let sp := resolveSplitter string splitter
  let cnt := if subparser.isIterable then
               some (count.getD ((subparser.pyLen : Int) - 1))
             else count
  let sequence ← splitPy string sp cnt
  if subparser.isIterable then do
    let n ← sequence.pyLen
    if subparser.pyLen = n then
      (subparser.callables.zip sequence.pieces).mapM (fun pc => pc.1 (pyStrip pc.2))
    else
      .error (.assertionError "Length of subparsers provided and resulting sequence must match")
  else
    match subparser with
    | .single f => ((sequence.pieces.map pyStrip).filter (fun p => !p.isEmpty)).mapM f
    | _ => .error (.typeError "unreachable: non-iterable subparsers are single callables")

/-! ### Integer extraction (BaseAoCParser._find_integers, IntParser) -/

/-- The scanner state while reproducing re.findall of the pattern
minus-sign-then-digits with the sign optional: outside any match (idle), just
after a minus sign that may open a signed run (minus), or inside a digit run
(run, with the digits collected in reverse). -/
inductive ScanSt where
  | idle
  | minus
  | run (neg : Bool) (digitsRev : List Char)

/-- Left-to-right scan collecting the maximal non-overlapping matches of an
optional minus sign followed by one or more digit characters, exactly as
re.findall produces them.  Parameterised by the digit predicate so that the
same scanner also serves the spec-modelled base-aware literal search. -/
def runsAux (dig : Char → Bool) : List Char → ScanSt → List (Bool × List Char)
  | [], .idle => []
  | [], .minus => []
  | [], .run neg ds => [(neg, ds.reverse)]
  | c :: cs, .idle =>
    if dig c then runsAux dig cs (.run false [c])
    else if c = '-' then runsAux dig cs .minus
    else runsAux dig cs .idle
  | c :: cs, .minus =>
    if dig c then runsAux dig cs (.run true [c])
    else if c = '-' then runsAux dig cs .minus
    else runsAux dig cs .idle
  | c :: cs, .run neg ds =>
    if dig c then runsAux dig cs (.run neg (c :: ds))
    else if c = '-' then (neg, ds.reverse) :: runsAux dig cs .minus
    else (neg, ds.reverse) :: runsAux dig cs .idle

/-- The sign-and-digit-run matches of the decimal regex in a string, in
order, as (negative sign present, digit characters). -/
def findRuns (s : String) : List (Bool × List Char) :=
  runsAux Char.isDigit s.data .idle

/-- The numeric value of the decimal digit character c ('0' to '9'). -/
def digitVal (c : Char) : Nat := c.toNat - 48

/-- Base-b value of a most-significant-first digit list. -/
def natOfDigits (b : Nat) (ds : List Nat) : Nat :=
  ds.foldl (fun a d => b * a + d) 0

/-- The digit values of a run of digit characters. -/
def runDigits (ds : List Char) : List Nat := ds.map digitVal

/-- Python int(x, base) applied to a string consisting of an optional minus
sign followed by the decimal digit characters ds (the only shape the source
ever passes: regex matches and str() of an int).  Fails when the base is out
of range or some digit is not a valid digit below the base. -/
def intFromRun (b : Nat) (neg : Bool) (ds : List Char) : Except PyErr Int :=
  if b < 2 ∨ 36 < b then .error (.valueError "int() base must be >= 2 and <= 36")
  else if ds ≠ [] ∧ ds.all (fun c => c.isDigit && digitVal c < b) then
    .ok ((if neg then (-1 : Int) else 1) * (natOfDigits b (runDigits ds) : Int))
  else .error (.valueError "invalid literal for int()")

/-- BaseAoCParser._find_integers: every regex match converted by
int(x, base); the list comprehension propagates the first failure. -/
def findIntegers (s : String) (b : Nat) : Except PyErr (List Int) :=
  (findRuns s).mapM (fun r => intFromRun b r.1 r.2)

/-- Helper for the canonical decimal digits: fuel-bounded recursion on the
quotient by ten; fuel = m suffices since the depth is at most the number of
digits. -/
def natDigitsAux : Nat → Nat → List Nat
  | 0, m => [m % 10]
  | fuel + 1, m => if m < 10 then [m] else natDigitsAux fuel (m / 10) ++ [m % 10]

/-- The canonical (no leading zero) most-significant-first decimal digits of
a natural number; 0 has the single digit 0, as in Python str(0). -/
def natDecimalDigits (m : Nat) : List Nat := natDigitsAux m m

/-- Python str() of an int: an optional minus sign followed by the canonical
decimal digits of the absolute value. -/
def intRepr (v : Int) : String :=
  String.mk ((if v < 0 then ['-'] else []) ++
    (natDecimalDigits v.natAbs).map (fun d => Char.ofNat (48 + d)))

/-- Python int(s, base) on a string of the shape produced by intRepr: strip
an optional leading minus sign and convert the digit characters. -/
def pyIntOfString (s : String) (b : Nat) : Except PyErr Int :=
  match s.data with
  | [] => intFromRun b false []
  | c :: cs => if c = '-' then intFromRun b true cs else intFromRun b false (c :: cs)

/-- IntParser(base).parse: find the decimal integer matches (note that the
source calls self._find_integers(string) without forwarding self.base, so
this first conversion is always base ten), take the first (IndexError when
there is none), and reconvert its str() in the configured base. -/
def intParserParse (base : Nat) (s : String) : Except PyErr PyVal := do
  let allIntegers ← findIntegers s 10
  match allIntegers with
  | [] => .error (.indexError "list index out of range")
  | v :: _ => do
    let r ← pyIntOfString (intRepr v) base
    .ok (.int r)

/-- The builtin str used as the default subparser: on the string pieces fed
to it by the decomposition it is the identity. -/
def strBuiltin : String → Except PyErr PyVal := fun s => .ok (.str s)

/-! ### ChainParser -/

/-- ChainParser._chain_parsers: an empty list returns the value unchanged,
otherwise the first parser is applied and the rest are chained on its
output.  Values are PyVal because intermediate results need not be strings;
a raising stage propagates. -/
def chainParsers : PyVal → List (PyVal → Except PyErr PyVal) → Except PyErr PyVal
  | s, [] => .ok s
  | s, p :: rest => do chainParsers (← p s) rest

/-- ChainParser(parsers).parse(string). -/
def chainParserParse (parsers : List (PyVal → Except PyErr PyVal)) (string : PyVal) :
    Except PyErr PyVal :=
  chainParsers string parsers

/-! ### ListParser, TupleParser, DictParser -/

/-- ListParser.parse: strip, decompose with the configured splitter and
subparser, materialise as a list. -/
def listParserParse (splitter : SplitSpec) (subparser : SubSpec) (string : String) :
    Except PyErr PyVal := do
  let elems ← iterableParse (pyStrip string) splitter subparser none
  .ok (.list elems)

/-- Truthiness of the format slot of TupleParser (if self.format:). -/
def tupleFormatTruthy : Option String → Bool
  | none => false
  | some f => !f.isEmpty

/-- TupleParser.parse.  When the format slot is truthy the source evaluates
self._format_parse(self.format, string, self.subparser); _format_parse is
declared with exactly three parameters (format, string, subparser) and no
staticmethod decorator, so this bound-method call passes four arguments
(the instance plus three) and unconditionally raises TypeError before any
template matching can happen.  Otherwise the stripped input is decomposed as
for a list and the result is materialised as a tuple, or passed positionally
to the configured dataclass constructor when one is present. -/
def tupleParserParse (subparser : SubSpec) (splitter : SplitSpec) (format : Option String)
    (dataclass : Option (List PyVal → Except PyErr PyVal)) (string : String) :
    Except PyErr PyVal := do
  if tupleFormatTruthy format then
    .error (.typeError "_format_parse() takes 3 positional arguments but 4 were given")
  else do
    let seq ← iterableParse (pyStrip string) splitter subparser none
    match dataclass with
    | some dc => dc seq
    | none => .ok (.tuple seq)

/-- Equality of the dictionary keys that can reach dictInsert in this
development (strings, ints, booleans); Python additionally identifies
numeric keys across types and hashes tuples, which no reachable code path
here exercises. -/
def pyKeyEq : PyVal → PyVal → Bool
  | .str a, .str b => a == b
  | .int a, .int b => a == b
  | .bool a, .bool b => a == b
  | _, _ => false

/-- Python dict insertion: an existing key keeps its position and gets the
new value (last write wins), a new key is appended. -/
def dictInsert : List (PyVal × PyVal) → PyVal → PyVal → List (PyVal × PyVal)
  | [], k, v => [(k, v)]
  | (k0, v0) :: rest, k, v =>
    if pyKeyEq k0 k then (k0, v) :: rest
    else (k0, v0) :: dictInsert rest k v

/-- dict(iterable): every element must be a pair, inserted in order. -/
def dictBuild : List (PyVal × PyVal) → List PyVal → Except PyErr (List (PyVal × PyVal))
  | acc, [] => .ok acc
  | acc, .tuple [k, v] :: rest => dictBuild (dictInsert acc k v) rest
  | _, _ => .error (.valueError "dictionary update sequence element is not a pair")

/-- The subparser slot of the TupleParser built by DictParser.__init__.  The
source calls TupleParser(self.key_value_splitter, [self.key_parser,
self.value_parser]) with positional arguments, but TupleParser.__init__
declares (subparser, splitter, format, dataclass): the key-value splitter
string therefore lands in the subparser slot (subparser or str keeps a
non-empty string and replaces a falsy one by the builtin str). -/
def dictTupleSub (kvSplit : Option String) : SubSpec :=
  match kvSplit with
  | some s => if s.isEmpty then .single strBuiltin else .strVal s
  | none => .single strBuiltin

/-- The splitter slot of the TupleParser built by DictParser.__init__: by the
same argument swap it receives the Python list [key_parser, value_parser],
whose two elements are callables, never strings. -/
def dictTupleSplit : SplitSpec :=
  .seq [.obj "a non-string object", .obj "a non-string object"]

/-- DictParser.parse for a configuration with key parser, value parser,
sequence splitter and key-value splitter (None modelled as Option none, with
parser defaults already resolved to the builtin str by the constructor's
key_parser or str).  The raw input is decomposed with the sequence splitter
and the builtin str, then each entry string is parsed by the swapped
TupleParser from __init__ and the results are collected into a dict.  Because of the argument swap the
two configured parsers participate only as the two non-string elements of
dictTupleSplit, so their parsing behaviour is unreachable; they are kept in
the signature for fidelity to the constructor. -/
def dictParserParse (_keyParser _valueParser : String → Except PyErr PyVal)
    (seqSplit kvSplit : Option String) (string : String) : Except PyErr PyVal := do
  let sp := match seqSplit with
            | some s => SplitSpec.str s
            | none => SplitSpec.nil
  let sequence ← iterableParse string sp (.single strBuiltin) none
  let pairs ← sequence.mapM (fun v => do
    match v with
    | .str s => tupleParserParse (dictTupleSub kvSplit) dictTupleSplit none none s
    | _ => .error (.typeError "sequence elements are strings"))
  let entries ← dictBuild [] pairs
  .ok (.dict entries)

/-! ### Spec-side model of base-aware integer literals -/

/-- The value of a digit character in bases up to 36: decimal digits, then
letters of either case starting at ten; 99 marks a non-digit and never
satisfies specDigitInBase. -/
def extDigitVal (c : Char) : Nat :=
  if c.isDigit then c.toNat - 48
  else if 'a' ≤ c && c ≤ 'z' then c.toNat - 87
  else if 'A' ≤ c && c ≤ 'Z' then c.toNat - 55
  else 99

/-- Whether c is a digit character of base b (so for base sixteen: 0-9, a-f,
A-F). -/
def specDigitInBase (b : Nat) (c : Char) : Bool :=
  (c.isDigit || ('a' ≤ c && c ≤ 'z') || ('A' ≤ c && c ≤ 'Z')) && extDigitVal c < b

/-- Modelled from the spec: the integer literals embedded in a string for a
configured base, namely the maximal contiguous runs of base-b digit
characters, optionally sign-prefixed, each interpreted in base b (the spec's
reading of "string containing exactly one embedded integer literal n
(optionally signed, in the configured base)").  The source has no such
base-aware scan; this definition exists to state what the claim asserts
about bases above ten. -/
def specFindLiterals (b : Nat) (s : String) : List Int :=
  (runsAux (specDigitInBase b) s.data .idle).map
    (fun r => (if r.1 then (-1 : Int) else 1) * (natOfDigits b (r.2.map extDigitVal) : Int))

/-! ### Claim theorems -/

/-- C1: the claim says DictParser(sequence_splitter comma, key_value_splitter
colon, value parser Int).parse of the text a colon one comma b colon two
returns the two-entry mapping.  The code instead raises TypeError on that
very input: DictParser.__init__ passes its key-value splitter where
TupleParser expects the subparser and the pair of parsers where it expects
the splitter, so splitting each entry calls str.replace with a parser object
as the pattern. -/
theorem dictParser_swapped_args_typeError :
    dictParserParse strBuiltin (intParserParse 10) (some ",") (some ":") "a:1,b:2"
      = .error (.typeError "replace() argument 1 must be str, not a non-string object") := by
  rfl

/-- C3 counterexample: a TupleParser with two positional subparsers and the
comma splitter, applied to an input that the delimiter decomposes into three
pieces, does not fail with ArityMismatch: the split limit is fixed to one,
so the parse succeeds with the third field left inside the second piece. -/
theorem tupleParser_two_subparsers_three_fields_ok :
    listSplitOn ",".data "a,b,c".data = ["a".data, "b".data, "c".data] ∧
    tupleParserParse (.positional [strBuiltin, strBuiltin]) (.str ",") none none "a,b,c"
      = .ok (.tuple [.str "a", .str "b,c"]) := by
  exact ⟨rfl, rfl⟩

/-- C4: the claim says a positional subparser list of length one forces the
whole input to be returned as a single piece regardless of delimiters.  The
code computes count = 0 for length one, and the expression string.split(
splitter, count) if count else string.split(splitter) treats 0 as falsy, so
the input a comma b is split at every comma into two pieces and parsing then
fails the arity assertion instead of succeeding with one piece. -/
theorem tupleParser_one_subparser_unbounded_split :
    pySplitBounded "a,b" "," (some 0) = ["a", "b"] ∧
    tupleParserParse (.positional [strBuiltin]) (.str ",") none none "a,b"
      = .error (.assertionError
          "Length of subparsers provided and resulting sequence must match") := by
  exact ⟨rfl, rfl⟩

/-- C5 counterexample: for base sixteen the string 2A contains exactly one
embedded base-sixteen literal, with value forty-two, but IntParser(16).parse
returns two: the digit-run scan only matches the decimal digit characters,
so it finds the run 2 and reinterprets that alone. -/
theorem intParser_base16_letter_digits :
    specFindLiterals 16 "2A" = [42] ∧
    ((42 : Int) = 2) = False ∧
    intParserParse 16 "2A" = .ok (.int 2) := by
  refine ⟨rfl, by simp, rfl⟩

/-- C6 counterexample: the string comma-newline contains both a newline and a
comma, yet the heuristic resolves the comma, not the newline: candidates are
searched in the stripped text and stripping removes the trailing newline. -/
theorem decideSplitter_stripped_newline :
    strOccurs ",\n" "\n" = true ∧
    strOccurs ",\n" "," = true ∧
    decideSplitter ",\n" = some "," := by
  exact ⟨rfl, rfl, rfl⟩

/-- A string different from the empty string is not isEmpty. -/
theorem isEmpty_false_of_ne (s : String) (h : s ≠ "") : s.isEmpty = false := by
  cases he : s.isEmpty
  · rfl
  · exact absurd ((String.isEmpty_iff s).mp he) h

/-- C2: the claim says a TupleParser constructed with a format template
extracts the template's fields and fails with FormatMismatch exactly when
the template does not match.  In the code every parse call with a truthy
format raises TypeError before any matching: _format_parse is declared with
three parameters and no staticmethod decorator, and the source invokes it as
a bound method with three explicit arguments, passing four in total. -/
theorem tupleParser_format_always_typeError (sub : SubSpec)
    (dc : Option (List PyVal → Except PyErr PyVal)) (fmt s : String) (hfmt : fmt ≠ "") :
    tupleParserParse sub .nil (some fmt) dc s
      = .error (.typeError "_format_parse() takes 3 positional arguments but 4 were given") := by
  have h : tupleFormatTruthy (some fmt) = true := by
    simp [tupleFormatTruthy, isEmpty_false_of_ne fmt hfmt]
  simp [tupleParserParse, h]

/-- Witness for tupleParser_format_always_typeError at a concrete template
and input. -/
theorem tupleParser_format_always_typeError_w :
    "spam-eggs" ≠ "" ∧
    tupleParserParse (.single strBuiltin) .nil (some "spam-eggs") none "a-b"
      = .error (.typeError "_format_parse() takes 3 positional arguments but 4 were given") :=
  ⟨by decide, tupleParser_format_always_typeError (.single strBuiltin) none "spam-eggs" "a-b"
    (by decide)⟩

/-- Appending one parser to a chain post-composes it on the chain's result. -/
theorem chainParsers_append (ps : List (PyVal → Except PyErr PyVal))
    (p : PyVal → Except PyErr PyVal) (v : PyVal) :
    chainParsers v (ps ++ [p]) = (chainParsers v ps).bind p := by
  induction ps generalizing v with
  | nil =>
    show (p v).bind (fun x => chainParsers x []) = (Except.ok v).bind p
    cases hp : p v <;> simp [chainParsers, Except.bind, hp]
  | cons q qs ih =>
    show (q v).bind (fun x => chainParsers x (qs ++ [p]))
      = ((q v).bind (fun x => chainParsers x qs)).bind p
    cases hq : q v with
    | error e => simp [Except.bind]
    | ok w => simpa [Except.bind] using ih w

/-- C8: ChainParser applies its parsers in order, the output of each being
the input of the next — equivalently, the empty chain is the identity and a
chain extended by one parser binds that parser on the shorter chain's
result (errors propagating unchanged). -/
theorem chainParser_empty_and_append :
    (∀ v, chainParserParse [] v = .ok v) ∧
    (∀ (ps : List (PyVal → Except PyErr PyVal)) (p : PyVal → Except PyErr PyVal) (v : PyVal),
      chainParserParse (ps ++ [p]) v = (chainParserParse ps v).bind p) :=
  ⟨fun _ => rfl, fun ps p v => chainParsers_append ps p v⟩

/-- C9: a TupleParser in positional mode whose splitter is falsy, applied to
an input in which the heuristic finds no priority delimiter, fails with the
TypeError raised by taking len() of the lazy per-character generator that
_split returns for a missing delimiter — not with the ArityMismatch
assertion. -/
theorem tupleParser_heuristic_miss_len_typeError (sp : SplitSpec)
    (fs : List (String → Except PyErr PyVal)) (dc : Option (List PyVal → Except PyErr PyVal))
    (s : String) (hsp : sp.isTruthy = false) (hdec : decideSplitter (pyStrip s) = none) :
    tupleParserParse (.positional fs) sp none dc s
      = .error (.typeError "object of type generator has no len()") := by
  have hres : resolveSplitter (pyStrip s) sp = .nil := by
    simp [resolveSplitter, hsp, hdec]
  have h2 : iterableParse (pyStrip s) sp (.positional fs) none
      = .error (.typeError "object of type generator has no len()") := by
    unfold iterableParse
    rw [hres]
    rfl
  unfold tupleParserParse
  rw [h2]
  rfl

/-- Witness for tupleParser_heuristic_miss_len_typeError: two subparsers, no
configured splitter, and an input without any priority delimiter. -/
theorem tupleParser_heuristic_miss_len_typeError_w :
    SplitSpec.isTruthy .nil = false ∧ decideSplitter (pyStrip "ab") = none ∧
    tupleParserParse (.positional [strBuiltin, strBuiltin]) .nil none none "ab"
      = .error (.typeError "object of type generator has no len()") :=
  ⟨by decide, by decide,
    tupleParser_heuristic_miss_len_typeError .nil [strBuiltin, strBuiltin] none "ab"
      (by decide) (by decide)⟩

/-- The normalisation pass of _split over string-valued elements with a falsy
count, as one fold. -/
def replaceAllSeq (seps : List String) (s : String) : String :=
  seps.foldl (fun acc sep => String.mk (pyReplaceList acc.data sep.data "__split__".data none)) s

/-- replaceSeq on string-valued elements never fails and computes the fold. -/
theorem replaceSeq_strings (seps : List String) (s : String) :
    replaceSeq none (seps.map SplitElem.str) s = .ok (replaceAllSeq seps s) := by
  induction seps generalizing s with
  | nil => rfl
  | cons a l ih =>
    show replaceSeq none (SplitElem.str a :: l.map SplitElem.str) s = _
    rw [replaceSeq]
    simpa [countTruthy, replaceAllSeq] using
      ih (String.mk (pyReplaceList s.data a.data "__split__".data none))

/-- C10: when the splitter is a sequence of literals, _split first replaces
every literal by the internal placeholder and then splits on the
placeholder, so any occurrence of the placeholder already present in the
input splits too.  The second conjunct exhibits this: with the single
configured delimiter comma, the input a("__split__")b,c parses into the
three pieces a, b, c although a and b are not separated by any configured
delimiter. -/
theorem seqSplitter_placeholder_collision :
    (∀ (s : String) (seps : List String), seps ≠ [] →
      splitPy s (.seq (seps.map SplitElem.str)) none
        = .ok (.strList
            ((listSplitOn "__split__".data (replaceAllSeq seps s).data).map String.mk))) ∧
    listParserParse (.seq [.str ","]) (.single strBuiltin) "a__split__b,c"
      = .ok (.list [.str "a", .str "b", .str "c"]) := by
  constructor
  · intro s seps hne
    cases seps with
    | nil => exact absurd rfl hne
    | cons a l =>
      have h : splitPy s (.seq ((a :: l).map SplitElem.str)) none
          = (replaceSeq none ((a :: l).map SplitElem.str) s).bind
              (fun s2 => .ok (.strList (pySplitBounded s2 "__split__" none))) := rfl
      rw [h, replaceSeq_strings]
      rfl
  · rfl

/-- Witness for the general conjunct of seqSplitter_placeholder_collision at
one literal and an input already containing the placeholder. -/
theorem seqSplitter_placeholder_collision_w :
    ([";"] : List String) ≠ [] ∧
    splitPy "x__split__y" (.seq [.str ";"]) none = .ok (.strList ["x", "y"]) := by
  refine ⟨by decide, ?_⟩
  have h := seqSplitter_placeholder_collision.1 "x__split__y" [";"] (by decide)
  simpa using h

/-- The decomposition an iterable parser performs on its (already stripped)
input: resolve the splitter (heuristic included), split, and list the
resulting pieces (characters for the generator case). -/
def decomposePieces (string : String) (splitter : SplitSpec) (count : Option Int) :
    Except PyErr (List String) := do
  let r ← splitPy string (resolveSplitter string splitter) count
  .ok r.pieces

/-- C7: a ListParser with a single uniform subparser returns exactly the
subparser applied to each decomposed piece that is non-empty after
stripping, in decomposition order; empty or whitespace-only pieces
contribute nothing. -/
theorem listParser_uniform_filter_map (splitter : SplitSpec)
    (f : String → Except PyErr PyVal) (s : String) (ps : List String)
    (h : decomposePieces (pyStrip s) splitter none = .ok ps) :
    listParserParse splitter (.single f) s
      = (((ps.map pyStrip).filter (fun p => !p.isEmpty)).mapM f).map PyVal.list := by
  cases hsp : splitPy (pyStrip s) (resolveSplitter (pyStrip s) splitter) none with
  | error e =>
    rw [decomposePieces, hsp] at h
    exact absurd (show (Except.error e : Except PyErr (List String)) = .ok ps from h)
      (by simp)
  | ok r =>
    have hps : r.pieces = ps := by
      rw [decomposePieces, hsp] at h
      exact Except.ok.inj h
    have h1 : listParserParse splitter (.single f) s
        = (((r.pieces.map pyStrip).filter (fun x => !x.isEmpty)).mapM f).bind
            (fun es => .ok (.list es)) := by
      unfold listParserParse iterableParse
      simp only [SubSpec.isIterable, Bool.false_eq_true, if_false, hsp]
      rfl
    rw [h1, hps]
    cases ((ps.map pyStrip).filter (fun x => !x.isEmpty)).mapM f <;>
      simp [Except.bind, Except.map]

/-- Witness for listParser_uniform_filter_map: the comma splitter, the
builtin str subparser, and an input whose middle piece is whitespace-only
and is therefore dropped. -/
theorem listParser_uniform_filter_map_w :
    decomposePieces (pyStrip "a, ,b") (.str ",") none = .ok ["a", " ", "b"] ∧
    listParserParse (.str ",") (.single strBuiltin) "a, ,b"
      = .ok (.list [.str "a", .str "b"]) := by
  refine ⟨rfl, ?_⟩
  have h := listParser_uniform_filter_map (.str ",") strBuiltin "a, ,b" ["a", " ", "b"] rfl
  simpa using h

/-- C3 amended: with two positional subparsers the split limit is fixed to
one, so the decomposition yields at most two pieces and the arity assertion
fails exactly when it yields a single piece, that is, when the stripped
input contains no occurrence of the delimiter; the assertion error is the
ArityMismatch of the claim. -/
theorem tupleParser_two_subparsers_arity_error (p q : String → Except PyErr PyVal)
    (sep input : String) (hsep : sep ≠ "")
    (hone : listSplitOn sep.data (pyStrip input).data = [(pyStrip input).data]) :
    tupleParserParse (.positional [p, q]) (.str sep) none none input
      = .error (.assertionError
          "Length of subparsers provided and resulting sequence must match") := by
  have hni : sep.isEmpty = false := isEmpty_false_of_ne sep hsep
  have hres : resolveSplitter (pyStrip input) (.str sep) = .str sep := by
    simp [resolveSplitter, SplitSpec.isTruthy, hni]
  have hsplit : pySplitBounded (pyStrip input) sep (some 1) = [pyStrip input] := by
    simp [pySplitBounded, countTruthy, pySplitList, hone]
  have h2 : iterableParse (pyStrip input) (.str sep) (.positional [p, q]) none
      = .error (.assertionError
          "Length of subparsers provided and resulting sequence must match") := by
    unfold iterableParse
    rw [hres]
    have hc : (if (SubSpec.positional [p, q]).isIterable = true then
        some ((none : Option Int).getD (((SubSpec.positional [p, q]).pyLen : Int) - 1))
        else none) = some 1 := by
      simp [SubSpec.isIterable, SubSpec.pyLen]
    rw [hc]
    have hsp : splitPy (pyStrip input) (.str sep) (some 1)
        = .ok (.strList [pyStrip input]) := by
      unfold splitPy
      rw [show (SplitSpec.str sep).isTruthy = true by simp [SplitSpec.isTruthy, hni]]
      simp only [hsplit]
      rfl
    simp only [hsp]
    rfl
  unfold tupleParserParse
  rw [h2]
  rfl

/-- Witness for tupleParser_two_subparsers_arity_error: comma splitter and a
comma-free input. -/
theorem tupleParser_two_subparsers_arity_error_w :
    ("," : String) ≠ "" ∧
    listSplitOn ",".data (pyStrip "ab").data = [(pyStrip "ab").data] ∧
    tupleParserParse (.positional [strBuiltin, strBuiltin]) (.str ",") none none "ab"
      = .error (.assertionError
          "Length of subparsers provided and resulting sequence must match") :=
  ⟨by decide, by decide,
    tupleParser_two_subparsers_arity_error strBuiltin strBuiltin "," "ab"
      (by decide) (by decide)⟩

/-- C6 amended: the heuristic returns None exactly when no candidate of the
priority list occurs in the stripped text, and a string whose stripped form
contains a newline and a comma but no blank line resolves the newline
(newline outranks comma); a trailing newline, however, is removed by the
strip and does not count. -/
theorem decideSplitter_priority :
    (∀ s : String, decideSplitter s = none ↔
        ∀ d ∈ SPLITTER_PRIORITY, strOccurs (pyStrip s) d = false) ∧
    (∀ s : String, strOccurs (pyStrip s) "\n" = true → strOccurs (pyStrip s) "," = true →
        strOccurs (pyStrip s) "\n\n" = false → decideSplitter s = some "\n") := by
  constructor
  · intro s
    unfold decideSplitter
    rw [List.find?_eq_none]
    constructor
    · intro h d hd
      simpa using h d hd
    · intro h d hd
      simp [h d hd]
  · intro s h1 h2 h3
    unfold decideSplitter SPLITTER_PRIORITY
    simp [List.find?, h1, h3]

/-- Witness for the newline-over-comma conjunct of decideSplitter_priority
at a string whose newline survives stripping. -/
theorem decideSplitter_priority_w :
    strOccurs (pyStrip "a\nb,c") "\n" = true ∧
    strOccurs (pyStrip "a\nb,c") "," = true ∧
    strOccurs (pyStrip "a\nb,c") "\n\n" = false ∧
    decideSplitter "a\nb,c" = some "\n" :=
  ⟨by decide, by decide, by decide,
    decideSplitter_priority.2 "a\nb,c" (by decide) (by decide) (by decide)⟩

/-! ### Arithmetic facts about digit lists, for the IntParser theorem -/

/-- A digit character's value is below ten. -/
theorem digitVal_lt_ten (c : Char) (h : c.isDigit = true) : digitVal c < 10 := by
  simp [Char.isDigit] at h
  obtain ⟨h1, h2⟩ := h
  have g2 : c.val.toNat ≤ (57 : UInt32).toNat := h2
  have g3 : (57 : UInt32).toNat = 57 := by decide
  simp [digitVal, Char.toNat]
  omega

/-- The character of a decimal digit value has that code point. -/
theorem toNat_ofNat_digit (d : Nat) (hd : d < 10) : (Char.ofNat (48 + d)).toNat = 48 + d := by
  have hv : (48 + d).isValidChar := Or.inl (by omega)
  simp [Char.ofNat, hv, Char.toNat, Char.ofNatAux, UInt32.toNat]

/-- The character of a decimal digit value is a digit character. -/
theorem ofNat_digit_isDigit (d : Nat) (hd : d < 10) : (Char.ofNat (48 + d)).isDigit = true := by
  have ht : (Char.ofNat (48 + d)).val.toNat = 48 + d := toNat_ofNat_digit d hd
  simp [Char.isDigit]
  constructor
  · show (48 : UInt32).toNat ≤ (Char.ofNat (48 + d)).val.toNat
    rw [ht]
    norm_num
  · show (Char.ofNat (48 + d)).val.toNat ≤ (57 : UInt32).toNat
    rw [ht]
    have : (57 : UInt32).toNat = 57 := by decide
    omega

/-- Round trip from a decimal digit value through its character. -/
theorem digitVal_ofNat_digit (d : Nat) (hd : d < 10) : digitVal (Char.ofNat (48 + d)) = d := by
  simp [digitVal, toNat_ofNat_digit d hd]

/-- The most-significant-first fold against Mathlib's little-endian
ofDigits, with an accumulator. -/
theorem foldl_base_eq (b : Nat) :
    ∀ (M : List Nat) (a : Nat),
      M.foldl (fun x d => b * x + d) a = a * b ^ M.length + Nat.ofDigits b M.reverse := by
  intro M
  induction M with
  | nil => intro a; simp [Nat.ofDigits]
  | cons d M ih =>
    intro a
    rw [List.foldl_cons, ih, List.reverse_cons, Nat.ofDigits_append]
    simp [Nat.ofDigits, pow_succ, List.length_reverse]
    ring

/-- natOfDigits is ofDigits of the reversed list. -/
theorem natOfDigits_eq_ofDigits (b : Nat) (M : List Nat) :
    natOfDigits b M = Nat.ofDigits b M.reverse := by
  have h := foldl_base_eq b M 0
  simpa [natOfDigits] using h

/-- Leading zeros do not change the value of a digit list. -/
theorem natOfDigits_dropZeros (b : Nat) :
    ∀ D : List Nat, natOfDigits b (D.dropWhile (fun d => d == 0)) = natOfDigits b D := by
  intro D
  induction D with
  | nil => rfl
  | cons d D ih =>
    by_cases hd : d = 0
    · subst hd
      have h0 : natOfDigits b (0 :: D) = natOfDigits b D := by
        simp [natOfDigits]
      rw [List.dropWhile_cons]
      simpa [h0] using ih
    · rw [List.dropWhile_cons]
      simp [hd]

/-- The decimal digits of the value of a digit list are the list with its
leading zeros removed (reversed to Mathlib's little-endian order), provided
some non-zero digit remains. -/
theorem digits_natOfDigits (D : List Nat) (hD : ∀ d ∈ D, d < 10)
    (hne : D.dropWhile (fun d => d == 0) ≠ []) :
    Nat.digits 10 (natOfDigits 10 D) = (D.dropWhile (fun d => d == 0)).reverse := by
  have hsub : ∀ d ∈ D.dropWhile (fun d => d == 0), d ∈ D :=
    fun d hd => (List.dropWhile_sublist _).subset hd
  have hval : natOfDigits 10 D
      = Nat.ofDigits 10 (D.dropWhile (fun d => d == 0)).reverse := by
    rw [← natOfDigits_dropZeros 10 D, natOfDigits_eq_ofDigits]
  rw [hval]
  apply Nat.digits_ofDigits 10 (by norm_num)
  · intro l hl
    exact hD l (hsub l (List.mem_reverse.mp hl))
  · intro h
    rw [List.getLast_reverse]
    have hh := List.head_dropWhile_not (fun d => d == 0) D hne
    simpa using hh

/-- The fuel-bounded canonical decimal digits agree with Mathlib's digits
for positive numbers. -/
theorem natDigitsAux_eq (fuel : Nat) :
    ∀ m : Nat, 0 < m → m ≤ fuel → natDigitsAux fuel m = (Nat.digits 10 m).reverse := by
  induction fuel with
  | zero => intro m hm hf; omega
  | succ f ih =>
    intro m hm hf
    rw [natDigitsAux]
    by_cases h10 : m < 10
    · rw [if_pos h10, Nat.digits_def' (by norm_num : (1 : ℕ) < 10) hm]
      have hq : m / 10 = 0 := Nat.div_eq_of_lt h10
      simp [hq, Nat.mod_eq_of_lt h10]
    · rw [if_neg h10]
      have h1 : 0 < m / 10 := Nat.div_pos (le_of_not_lt h10) (by norm_num)
      have h2 : m / 10 ≤ f := by
        have := Nat.div_lt_self hm (by norm_num : 1 < 10)
        omega
      rw [ih (m / 10) h1 h2, Nat.digits_def' (by norm_num : (1 : ℕ) < 10) hm]
      simp

/-- The canonical decimal digits of a positive number. -/
theorem natDecimalDigits_pos (m : Nat) (hm : 0 < m) :
    natDecimalDigits m = (Nat.digits 10 m).reverse :=
  natDigitsAux_eq m m hm le_rfl

/-- Every canonical decimal digit is below ten. -/
theorem natDecimalDigits_lt_ten (m : Nat) : ∀ d ∈ natDecimalDigits m, d < 10 := by
  by_cases hm : 0 < m
  · rw [natDecimalDigits_pos m hm]
    intro d hd
    exact Nat.digits_lt_base (by norm_num) (List.mem_reverse.mp hd)
  · have : m = 0 := by omega
    subst this
    intro d hd
    simp [natDecimalDigits, natDigitsAux] at hd
    omega

/-- The canonical decimal digit list is never empty. -/
theorem natDecimalDigits_ne_nil (m : Nat) : natDecimalDigits m ≠ [] := by
  by_cases hm : 0 < m
  · rw [natDecimalDigits_pos m hm]
    simp [Nat.digits_ne_nil_iff_ne_zero]
    omega
  · have : m = 0 := by omega
    subst this
    simp [natDecimalDigits, natDigitsAux]

/-- The invariant carried by the scan state: a run in progress is non-empty
and consists of matched digit characters. -/
def ScanSt.sound (dig : Char → Bool) : ScanSt → Prop
  | .idle => True
  | .minus => True
  | .run _ ds => ds ≠ [] ∧ ∀ c ∈ ds, dig c = true

/-- Every run the scanner emits is a non-empty list of digit characters. -/
theorem runsAux_sound (dig : Char → Bool) :
    ∀ (l : List Char) (st : ScanSt), st.sound dig →
      ∀ r ∈ runsAux dig l st, r.2 ≠ [] ∧ ∀ c ∈ r.2, dig c = true := by
  intro l
  induction l with
  | nil =>
    intro st hst r hr
    cases st with
    | idle => simp [runsAux] at hr
    | minus => simp [runsAux] at hr
    | run neg ds =>
      obtain ⟨hne, hall⟩ := hst
      simp [runsAux] at hr
      subst hr
      exact ⟨by simpa using hne, fun c hc => hall c (List.mem_reverse.mp hc)⟩
  | cons c cs ih =>
    intro st hst r hr
    cases st with
    | idle =>
      rw [runsAux] at hr
      by_cases hd : dig c = true
      · rw [if_pos hd] at hr
        exact ih (.run false [c]) ⟨by simp, by simpa using hd⟩ r hr
      · rw [if_neg hd] at hr
        by_cases hm : c = '-'
        · rw [if_pos hm] at hr
          exact ih .minus trivial r hr
        · rw [if_neg hm] at hr
          exact ih .idle trivial r hr
    | minus =>
      rw [runsAux] at hr
      by_cases hd : dig c = true
      · rw [if_pos hd] at hr
        exact ih (.run true [c]) ⟨by simp, by simpa using hd⟩ r hr
      · rw [if_neg hd] at hr
        by_cases hm : c = '-'
        · rw [if_pos hm] at hr
          exact ih .minus trivial r hr
        · rw [if_neg hm] at hr
          exact ih .idle trivial r hr
    | run neg ds =>
      obtain ⟨hne, hall⟩ := hst
      rw [runsAux] at hr
      by_cases hd : dig c = true
      · rw [if_pos hd] at hr
        refine ih (.run neg (c :: ds)) ⟨by simp, ?_⟩ r hr
        intro x hx
        rcases List.mem_cons.mp hx with h | h
        · subst h; exact hd
        · exact hall x h
      · rw [if_neg hd] at hr
        by_cases hm : c = '-'
        · rw [if_pos hm] at hr
          rcases List.mem_cons.mp hr with h | h
          · subst h
            exact ⟨by simpa using hne, fun x hx => hall x (List.mem_reverse.mp hx)⟩
          · exact ih .minus trivial r h
        · rw [if_neg hm] at hr
          rcases List.mem_cons.mp hr with h | h
          · subst h
            exact ⟨by simpa using hne, fun x hx => hall x (List.mem_reverse.mp hx)⟩
          · exact ih .idle trivial r h

/-- mapM on a one-element list in the Except monad. -/
theorem mapM_singleton {α β : Type} (f : α → Except PyErr β) (x : α) :
    List.mapM f [x] = (f x).bind (fun v => .ok [v]) := by
  cases hf : f x with
  | error e =>
    show List.mapM.loop f [x] [] = _
    simp [List.mapM.loop, hf, Except.bind]
  | ok v =>
    show List.mapM.loop f [x] [] = _
    simp [List.mapM.loop, hf, Except.bind]

/-- Successful evaluation of the int conversion on a valid run. -/
theorem intFromRun_ok (b : Nat) (neg : Bool) (ds : List Char)
    (hb2 : 2 ≤ b) (hb36 : b ≤ 36) (hne : ds ≠ [])
    (hdig : ∀ c ∈ ds, c.isDigit = true) (hlt : ∀ c ∈ ds, digitVal c < b) :
    intFromRun b neg ds
      = .ok ((if neg then (-1 : Int) else 1) * (natOfDigits b (runDigits ds) : Int)) := by
  unfold intFromRun
  rw [if_neg (by omega), if_pos]
  refine ⟨hne, ?_⟩
  rw [List.all_eq_true]
  intro c hc
  simp [hdig c hc, hlt c hc]

/-- Reinterpreting the canonical decimal digits of a digit list's base-ten
value in another base gives the same result as reinterpreting the list
itself, and those canonical digits inherit any digit bound of the list. -/
theorem decimal_reencode (b : Nat) (hb : 2 ≤ b) (D : List Nat)
    (h10 : ∀ d ∈ D, d < 10) (hDb : ∀ d ∈ D, d < b) :
    (∀ d ∈ natDecimalDigits (natOfDigits 10 D), d < b) ∧
    natOfDigits b (natDecimalDigits (natOfDigits 10 D)) = natOfDigits b D := by
  by_cases hm0 : natOfDigits 10 D = 0
  · have hEnil : D.dropWhile (fun d => d == 0) = [] := by
      by_contra hEne
      have hd := digits_natOfDigits D h10 hEne
      rw [hm0] at hd
      simp at hd
      refine hEne ?_
      simp [List.dropWhile_eq_nil_iff]
      exact hd
    have hzero : natOfDigits b D = 0 := by
      rw [← natOfDigits_dropZeros b D, hEnil]
      rfl
    rw [hm0]
    constructor
    · intro d hd
      simp [natDecimalDigits, natDigitsAux] at hd
      omega
    · rw [show natDecimalDigits 0 = [0] from rfl,
        show natOfDigits b [0] = 0 from by simp [natOfDigits], hzero]
  · have hmpos : 0 < natOfDigits 10 D := Nat.pos_of_ne_zero hm0
    have hEne : D.dropWhile (fun d => d == 0) ≠ [] := by
      intro hEnil
      apply hm0
      rw [← natOfDigits_dropZeros 10 D, hEnil]
      rfl
    have hdd : Nat.digits 10 (natOfDigits 10 D)
        = (D.dropWhile (fun d => d == 0)).reverse :=
      digits_natOfDigits D h10 hEne
    have hsub : ∀ d ∈ D.dropWhile (fun d => d == 0), d ∈ D :=
      fun d hd => (List.dropWhile_sublist _).subset hd
    rw [natDecimalDigits_pos _ hmpos, hdd, List.reverse_reverse]
    exact ⟨fun d hd => hDb d (hsub d hd), natOfDigits_dropZeros b D⟩

/-- C5 amended: for a base between two and thirty-six and a string in which
the decimal digit-run scan finds exactly one (optionally sign-prefixed) run,
all of whose digits are valid in the configured base, IntParser(base).parse
returns the value of that run read in the configured base, with its sign —
independent of any surrounding non-digit text.  (The original claim fails
for bases above ten because the scan never matches letter digits.) -/
theorem intParser_digit_run (b : Nat) (s : String) (neg : Bool) (ds : List Char)
    (hb2 : 2 ≤ b) (hb36 : b ≤ 36)
    (hruns : findRuns s = [(neg, ds)])
    (hvalid : ∀ c ∈ ds, digitVal c < b) :
    intParserParse b s
      = .ok (.int ((if neg then (-1 : Int) else 1)
          * (natOfDigits b (runDigits ds) : Int))) := by
  obtain ⟨hne, hdig⟩ := runsAux_sound Char.isDigit s.data .idle trivial (neg, ds) (by
    rw [show runsAux Char.isDigit s.data ScanSt.idle = findRuns s from rfl, hruns]
    exact List.mem_singleton.mpr rfl)
  have hlt10 : ∀ c ∈ ds, digitVal c < 10 := fun c hc => digitVal_lt_ten c (hdig c hc)
  have hD10 : ∀ d ∈ runDigits ds, d < 10 := by
    intro d hd
    obtain ⟨c, hc, rfl⟩ := List.mem_map.mp hd
    exact hlt10 c hc
  have hDb : ∀ d ∈ runDigits ds, d < b := by
    intro d hd
    obtain ⟨c, hc, rfl⟩ := List.mem_map.mp hd
    exact hvalid c hc
  obtain ⟨hlt_b, hkey⟩ := decimal_reencode b hb2 (runDigits ds) hD10 hDb
  have hvten := intFromRun_ok 10 neg ds (by norm_num) (by norm_num) hne hdig hlt10
  set m : Nat := natOfDigits 10 (runDigits ds) with hm
  set vten : Int := (if neg then (-1 : Int) else 1) * (m : Int) with hv
  have hfi : findIntegers s 10 = .ok [vten] := by
    unfold findIntegers
    rw [hruns, mapM_singleton]
    show (intFromRun 10 neg ds).bind _ = _
    rw [hvten]
    rfl
  have habs : vten.natAbs = m := by
    cases neg <;> simp [hv]
  -- the characters of the decimal representation of the absolute value
  have hDLlt10 := natDecimalDigits_lt_ten m
  have hDLne := natDecimalDigits_ne_nil m
  have hchars_dig :
      ∀ c ∈ (natDecimalDigits m).map (fun d => Char.ofNat (48 + d)), c.isDigit = true := by
    intro c hc
    obtain ⟨d, hd, rfl⟩ := List.mem_map.mp hc
    exact ofNat_digit_isDigit d (hDLlt10 d hd)
  have hchars_lt :
      ∀ c ∈ (natDecimalDigits m).map (fun d => Char.ofNat (48 + d)), digitVal c < b := by
    intro c hc
    obtain ⟨d, hd, rfl⟩ := List.mem_map.mp hc
    rw [digitVal_ofNat_digit d (hDLlt10 d hd)]
    exact hlt_b d hd
  have hchars_ne : (natDecimalDigits m).map (fun d => Char.ofNat (48 + d)) ≠ [] := by
    simpa using hDLne
  have hrd : runDigits ((natDecimalDigits m).map (fun d => Char.ofNat (48 + d)))
      = natDecimalDigits m := by
    rw [runDigits, List.map_map]
    have hcg : ∀ d ∈ natDecimalDigits m,
        (digitVal ∘ fun d => Char.ofNat (48 + d)) d = id d := by
      intro d hd
      simpa using digitVal_ofNat_digit d (hDLlt10 d hd)
    rw [List.map_congr_left hcg, List.map_id]
  have hfr_true := intFromRun_ok b true _ hb2 hb36 hchars_ne hchars_dig hchars_lt
  have hfr_false := intFromRun_ok b false _ hb2 hb36 hchars_ne hchars_dig hchars_lt
  rw [hrd, hkey] at hfr_true hfr_false
  -- evaluate the final conversion according to the sign
  have hmain : pyIntOfString (intRepr vten) b
      = .ok ((if neg then (-1 : Int) else 1) * (natOfDigits b (runDigits ds) : Int)) := by
    by_cases hvn : vten < 0
    · have hneg : neg = true := by
        cases hn : neg
        · rw [hn] at hv
          simp at hv
          rw [hv] at hvn
          omega
        · rfl
      have hrepr : (intRepr vten).data
          = '-' :: (natDecimalDigits m).map (fun d => Char.ofNat (48 + d)) := by
        simp [intRepr, habs, if_pos hvn]
      have hps : pyIntOfString (intRepr vten) b
          = intFromRun b true ((natDecimalDigits m).map (fun d => Char.ofNat (48 + d))) := by
        unfold pyIntOfString
        rw [hrepr]
        simp
      rw [hps, hfr_true, hneg]
    · have hrepr : (intRepr vten).data
          = (natDecimalDigits m).map (fun d => Char.ofNat (48 + d)) := by
        simp [intRepr, habs, if_neg hvn]
      obtain ⟨d0, rest, hDL⟩ : ∃ d0 rest, natDecimalDigits m = d0 :: rest := by
        cases hD : natDecimalDigits m with
        | nil => exact absurd hD hDLne
        | cons a l => exact ⟨a, l, rfl⟩
      have hd0 : d0 < 10 := hDLlt10 d0 (by rw [hDL]; simp)
      have hc0 : Char.ofNat (48 + d0) ≠ '-' := by
        intro h
        have ht := toNat_ofNat_digit d0 hd0
        rw [h] at ht
        have : ('-' : Char).toNat = 45 := by decide
        omega
      have hps : pyIntOfString (intRepr vten) b
          = intFromRun b false ((natDecimalDigits m).map (fun d => Char.ofNat (48 + d))) := by
        unfold pyIntOfString
        rw [hrepr, hDL, List.map_cons]
        simp only []
        rw [if_neg hc0]
      cases hn : neg
      · rw [hps, hfr_false]
      · have hm0 : m = 0 := by
          rw [hn] at hv
          simp at hv
          rw [hv] at hvn
          omega
        have hzero : natOfDigits b (runDigits ds) = 0 := by
          rw [← hkey, hm0]
          rw [show natDecimalDigits 0 = [0] from rfl]
          simp [natOfDigits]
        rw [hps, hfr_false, hzero]
        norm_num
  unfold intParserParse
  rw [hfi]
  show (pyIntOfString (intRepr vten) b).bind (fun r => Except.ok (PyVal.int r)) = _
  rw [hmain]
  rfl

/-- Witness for intParser_digit_run: base two on the test input, whose only
digit run is one-zero-one, giving five. -/
theorem intParser_digit_run_w :
    findRuns "101\t" = [(false, ['1', '0', '1'])] ∧
    intParserParse 2 "101\t" = .ok (.int 5) := by
  refine ⟨by decide, ?_⟩
  have h := intParser_digit_run 2 "101\t" false ['1', '0', '1']
    (by norm_num) (by norm_num) (by decide) (by decide)
  simpa [natOfDigits, runDigits, digitVal] using h

end Aocp
